import Mathlib

/-!
# Verification of the wiimote device manager

Shallow embedding of `src/manager.rs` and `src/result.rs` of the
wiimote-rs repository: the device registry, the scan/reconcile step, the
scheduler loop, the singleton construction guard, and the receiver
hand-off.  External collaborators (the native scan provider, the
`WiimoteDevice` construction/reconnect outcomes, and `try_lock` results)
are modelled as explicit inputs, since the manager treats them opaquely.

The design document records that the repository contains a second manager
variant using a bounded delivery channel with an overflow buffer and an
atomic scan-interval cell; that variant is not among the provided source
files, so those two components are modelled from the specification text
(marked `Modelled from the spec:` below).
-/

namespace WiimoteRs

/-- Error taxonomy of `src/result.rs` (`WiimoteDeviceError`); `u16`
payloads become `Nat`. -/
inductive WiimoteDeviceError where
  | invalidVendorID : Nat → WiimoteDeviceError
  | invalidProductID : Nat → WiimoteDeviceError
  | missingData : WiimoteDeviceError
  | invalidChecksum : WiimoteDeviceError
  | invalidData : WiimoteDeviceError
deriving DecidableEq

/-- Error taxonomy of `src/result.rs` (`WiimoteError`). -/
inductive WiimoteError where
  | wiimoteDeviceError : WiimoteDeviceError → WiimoteError
  | disconnected : WiimoteError
deriving DecidableEq

deriving instance DecidableEq for Except

/-- A native handle returned by the scan provider.  The manager only
reads its stable `identifier()` and passes the handle to
`WiimoteDevice::new` / `reconnect`, whose outcomes are external to the
manager; we carry those outcomes on the handle itself. -/
structure NativeWiimote where
  identifier : String
  /-- Outcome of `WiimoteDevice::new` on this handle. -/
  newResult : Except WiimoteError Unit
  /-- Outcome of `WiimoteDevice.reconnect` with this handle. -/
  reconnectResult : Except WiimoteError Unit
deriving DecidableEq

/-- A registered device record is identified by the allocation index of
its `Arc::new(Mutex::new(device))` cell: two records are the same object
iff they carry the same index.  The protocol state inside the record is
opaque to the manager. -/
abbrev RecId := Nat

/-- The registry `seen_devices : HashMap<String, Arc<Mutex<WiimoteDevice>>>`,
as an association list with unique keys, plus the allocation counter
producing fresh record identities. -/
structure ManagerState where
  seenDevices : List (String × RecId)
  nextId : RecId
deriving DecidableEq

/-- `HashMap::get` on the association list. -/
def lookupA (l : List (String × RecId)) (k : String) : Option RecId :=
  (l.find? (fun p => p.1 = k)).map (·.2)

/-- `HashMap::insert`: replaces the binding when the key is present,
otherwise adds one. -/
def insertA (l : List (String × RecId)) (k : String) (v : RecId) :
    List (String × RecId) :=
  if (l.find? (fun p => p.1 = k)).isSome then
    l.map (fun p => if p.1 = k then (k, v) else p)
  else
    l ++ [(k, v)]

/-- The view the prune step gets of a record: `none` when `try_lock`
fails, `some d` when the lock is obtained and `manually_disconnected()`
reads `d`. -/
abbrev LockView := RecId → Option Bool

/-- The `retain` call opening `WiimoteManager::scan`: keep an entry when
`try_lock` fails, otherwise keep it iff the manually-disconnected flag is
false (`map_or(true, |d| !d.manually_disconnected())`). -/
def pruneStep (lockView : LockView) (l : List (String × RecId)) :
    List (String × RecId) :=
  l.filter (fun p =>
    match lockView p.2 with
    | none => true
    | some d => !d)

/-- Observable events of one scan iteration: reconnect attempts (with
the record they were invoked on), successful constructions, and the two
`eprintln!` diagnostics. -/
inductive ScanEvent where
  | reconnectOk : String → RecId → ScanEvent
  | reconnectFailed : String → RecId → WiimoteError → ScanEvent
  | connected : String → RecId → ScanEvent
  | connectFailed : String → WiimoteError → ScanEvent
deriving DecidableEq

/-- The `for native_wiimote in native_devices` loop of
`WiimoteManager::scan`: look each handle up by identifier; reconnect the
existing record (logging a failure), or construct a new record, push it
onto `new_devices` and insert it into the registry (logging a
construction failure without touching the registry).  The `Vec` pushes
of the loop become list conses on return, preserving loop order. -/
def reconcileLoop (s : ManagerState) (handles : List NativeWiimote) :
    ManagerState × List (String × RecId) × List ScanEvent :=
  match handles with
  | [] => (s, [], [])
  | h :: rest =>
    match lookupA s.seenDevices h.identifier with
    | some rid =>
      let ev := match h.reconnectResult with
        | .ok _ => ScanEvent.reconnectOk h.identifier rid
        | .error e => ScanEvent.reconnectFailed h.identifier rid e
      let r := reconcileLoop s rest
      (r.1, r.2.1, ev :: r.2.2)
    | none =>
      match h.newResult with
      | .ok _ =>
        let rid := s.nextId
        let r := reconcileLoop
          { seenDevices := insertA s.seenDevices h.identifier rid,
            nextId := rid + 1 } rest
        (r.1, (h.identifier, rid) :: r.2.1,
          ScanEvent.connected h.identifier rid :: r.2.2)
      | .error e =>
        let r := reconcileLoop s rest
        (r.1, r.2.1, ScanEvent.connectFailed h.identifier e :: r.2.2)

/-- `WiimoteManager::scan`: prune manually-disconnected records, then
enumerate (`handles` is what `wiimotes_scan` filled in) and reconcile.
Returns the new state, the `new_devices` return value, and the event
log. -/
def scan (lockView : LockView) (handles : List NativeWiimote)
    (s : ManagerState) :
    ManagerState × List (String × RecId) × List ScanEvent :=
  reconcileLoop { s with seenDevices := pruneStep lockView s.seenDevices }
    handles

/-! ## Singleton construction guard (C4) -/

/-- Outcome of one `WiimoteManager::new_with_interval` call: either the
manager is created, or the process panics.  There is no error-return
constructor, matching the source, where the only failure mode is
`panic!`. -/
inductive CtorOutcome where
  | created : CtorOutcome
  | panicked : String → CtorOutcome
deriving DecidableEq

/-- The singleton guard of `new_with_interval`: an atomic
`swap(true, SeqCst)` on `WIIMOTE_MANAGER_INITIALIZED`, followed by a
panic when the previous value was `true`.  Returns the new flag value
and the outcome.  The flag is set unconditionally and no code path ever
writes `false`. -/
def managerCtor (flag : Bool) : Bool × CtorOutcome :=
  let prev := flag
  if prev then
    (true, CtorOutcome.panicked
      "Several WiimoteManagers created in the same application!")
  else
    (true, CtorOutcome.created)

/-- A sequence of `n` construction attempts in one process, threading
the static flag. -/
def runCtors (flag : Bool) : Nat → Bool × List CtorOutcome
  | 0 => (flag, [])
  | n + 1 =>
    let (flag', out) := managerCtor flag
    let (flag'', outs) := runCtors flag' n
    (flag'', out :: outs)

/-! ## Receiver hand-off (C8) -/

/-- `WiimoteManager::new_devices_receiver`: `mem::take` on the
`Option<Channel>` field — returns the current contents and leaves
`None` behind. -/
def newDevicesReceiver {R : Type} (slot : Option R) :
    Option R × Option R :=
  (slot, none)

/-- A sequence of `n` calls to `new_devices_receiver`, threading the
field; returns the list of results. -/
def runReceiverCalls {R : Type} (slot : Option R) : Nat → List (Option R)
  | 0 => []
  | n + 1 =>
    let (res, slot') := newDevicesReceiver slot
    res :: runReceiverCalls slot' n

/-- The constructor stores the channel's receiving end in the manager:
`new_devices_receiver: Some(new_devices_receiver)`. -/
def initialReceiverSlot {R : Type} (receiver : R) : Option R :=
  some receiver

/-! ## Observation helpers -/

/-- Number of handles in a provider result carrying identifier `X`. -/
def countIdent (X : String) (hs : List NativeWiimote) : Nat :=
  hs.countP (fun h => h.identifier = X)

/-- Number of records for identifier `X` in a `new_devices` list. -/
def countNewX (X : String) (nd : List (String × RecId)) : Nat :=
  nd.countP (fun p => p.1 = X)

/-- Number of successful-construction events for identifier `X`. -/
def countConnectedX (X : String) (evs : List ScanEvent) : Nat :=
  evs.countP (fun e =>
    match e with
    | .connected id _ => id = X
    | _ => false)

/-- Number of reconnect invocations (successful or failed) for
identifier `X`. -/
def countReconnectX (X : String) (evs : List ScanEvent) : Nat :=
  evs.countP (fun e =>
    match e with
    | .reconnectOk id _ => id = X
    | .reconnectFailed id _ _ => id = X
    | _ => false)

/-- Whether an event is a reconnect invocation for identifier `X`. -/
def isReconnectX (X : String) (e : ScanEvent) : Bool :=
  match e with
  | .reconnectOk id _ => id = X
  | .reconnectFailed id _ _ => id = X
  | _ => false

/-- The record a reconnect event was invoked on (junk on other events). -/
def reconnectTarget (e : ScanEvent) : RecId :=
  match e with
  | .reconnectOk _ r => r
  | .reconnectFailed _ r _ => r
  | _ => 0

/-! ## Multi-iteration scanning -/

/-- The external inputs of one scheduler iteration: the `try_lock` /
flag outcomes seen by the prune pass and the provider's scan result. -/
structure IterInput where
  lockView : LockView
  handles : List NativeWiimote

/-- The manager state at the start of each iteration (and, last, after
the final iteration). -/
def statesOf (s : ManagerState) : List IterInput → List ManagerState
  | [] => [s]
  | it :: rest => s :: statesOf (scan it.lockView it.handles s).1 rest

/-- Per-iteration outputs (`new_devices`, events) of a sequence of scan
calls. -/
def runScans (s : ManagerState) :
    List IterInput → List (List (String × RecId) × List ScanEvent)
  | [] => []
  | it :: rest =>
    let r := scan it.lockView it.handles s
    (r.2.1, r.2.2) :: runScans r.1 rest

/-- The manager state left after a sequence of scan calls. -/
def finalState (s : ManagerState) : List IterInput → ManagerState
  | [] => s
  | it :: rest => finalState (scan it.lockView it.handles s).1 rest

/-! ## The scheduler thread loop -/

/-- The external inputs of one iteration of the `wii-remote-scan` thread
body: whether `weak_manager.upgrade()` succeeds, what the scan sees, and
whether the channel's receiving end is still alive when the iteration's
sends happen. -/
structure LoopInput where
  alive : Bool
  lockView : LockView
  handles : List NativeWiimote
  receiverAlive : Bool

/-- Why a finite run of the scheduler loop stopped: the weak upgrade
failed, a send on the disconnected channel failed (the `return` inside
the closure), or the modelled input trace ran out (the real loop would
keep iterating). -/
inductive LoopExit where
  | managerDropped : LoopExit
  | channelClosed : LoopExit
  | inputExhausted : LoopExit
deriving DecidableEq

/-- The `while let Some(manager) = weak_manager.upgrade()` loop: each
iteration scans under the manager lock, then `try_for_each` sends every
new device.  With the calloop channel, a send fails exactly when the
receiver was dropped; on a failed send the closure `return`s.  An
iteration that discovered nothing performs no send and cannot observe
the closed channel.  Returns the final state, every record delivered to
the channel, and why the run stopped. -/
def schedulerLoop (s : ManagerState) :
    List LoopInput → ManagerState × List (String × RecId) × LoopExit
  | [] => (s, [], LoopExit.inputExhausted)
  | inp :: rest =>
    if inp.alive then
      let r := scan inp.lockView inp.handles s
      if inp.receiverAlive then
        let w := schedulerLoop r.1 rest
        (w.1, r.2.1 ++ w.2.1, w.2.2)
      else if r.2.1.isEmpty then
        schedulerLoop r.1 rest
      else
        (r.1, [], LoopExit.channelClosed)
    else (s, [], LoopExit.managerDropped)

/-- The manager state after a sequence of loop iterations' scans. -/
def stateAfterIters (s : ManagerState) : List LoopInput → ManagerState
  | [] => s
  | inp :: rest => stateAfterIters (scan inp.lockView inp.handles s).1 rest

/-! ## Bounded delivery channel (the backpressured manager variant)

Modelled from the spec: the repository's second manager variant — a
bounded Delivery Channel of capacity `C` (default 8) with a
scheduler-local overflow buffer — is not among the provided source
files; the following definitions transcribe §4.2 of the design
document. -/

/-- Modelled from the spec: a bounded FIFO channel of capacity `cap`. -/
structure BoundedChannel where
  cap : Nat
  queue : List RecId

/-- Modelled from the spec: a non-blocking push, succeeding exactly when
the channel holds fewer than `cap` records. -/
def tryPush (c : BoundedChannel) (x : RecId) : Option BoundedChannel :=
  if c.queue.length < c.cap then some { c with queue := c.queue ++ [x] }
  else none

/-- Modelled from the spec: one publish step attempts a non-blocking
push per pending record, in order; a record whose push finds the channel
full is appended to the overflow buffer (returned second). -/
def publishStep (c : BoundedChannel) :
    List RecId → BoundedChannel × List RecId
  | [] => (c, [])
  | x :: rest =>
    match tryPush c x with
    | some c' =>
      let r := publishStep c' rest
      (r.1, r.2)
    | none =>
      let r := publishStep c rest
      (r.1, x :: r.2)

/-- Modelled from the spec: the delivery state across iterations — the
bounded channel, the scheduler-local overflow buffer, and everything the
consumer has drained so far (in drain order). -/
structure DeliveryState where
  chan : BoundedChannel
  overflow : List RecId
  consumed : List RecId

/-- Modelled from the spec: the consumer drains `n` records from the
front of the channel between publish steps. -/
def consumerPop (d : DeliveryState) (n : Nat) : DeliveryState :=
  { d with
    chan := { d.chan with queue := d.chan.queue.drop n },
    consumed := d.consumed ++ d.chan.queue.take n }

/-- Modelled from the spec: one scheduler iteration's delivery work —
the consumer drains, then the publish step retries the overflow buffer
ahead of the iteration's newer discoveries. -/
def deliveryIter (d : DeliveryState) (inp : Nat × List RecId) :
    DeliveryState :=
  let d' := consumerPop d inp.1
  let r := publishStep d'.chan (d'.overflow ++ inp.2)
  { chan := r.1, overflow := r.2, consumed := d'.consumed }

/-- Modelled from the spec: a run of delivery iterations; each input is
(consumer drain count, records discovered this iteration). -/
def deliveryRun (d : DeliveryState) :
    List (Nat × List RecId) → DeliveryState
  | [] => d
  | inp :: rest => deliveryRun (deliveryIter d inp) rest

/-- Modelled from the spec: the initial delivery state, with the design
default capacity of 8. -/
def initDelivery : DeliveryState :=
  { chan := { cap := 8, queue := [] }, overflow := [], consumed := [] }

/-- All records discovered over a run, in discovery order. -/
def allDiscoveries (trace : List (Nat × List RecId)) : List RecId :=
  (trace.map (·.2)).flatten

/-! ## Scan-interval cell (the backpressured manager variant)

Modelled from the spec: the canonical manager variant keeps the scan
interval in a single wait-free atomic cell, read once per iteration at
the sleep step; writes are single unconditional steps that always
complete. -/

/-- Modelled from the spec: writing the interval cell — a single
unconditional store that always succeeds (wait-free). -/
def writeCell (_c : Nat) (v : Nat) : Nat := v

/-- Modelled from the spec: reading the interval cell. -/
def readCell (c : Nat) : Nat := c

/-- Apply a sequence of writes, each a `writeCell` step. -/
def applyWrites (c : Nat) (ws : List Nat) : Nat := ws.foldl writeCell c

/-- One scheduler iteration from the cell's viewpoint: the interval
writes that land before the iteration's single read, and those that land
while the scheduler sleeps on the value it read. -/
structure IntervalIter where
  writesBeforeRead : List Nat
  writesDuringSleep : List Nat

/-- The durations slept, one per iteration (each from that iteration's
single `readCell`), and the final cell value. -/
def intervalRun (c : Nat) : List IntervalIter → List Nat × Nat
  | [] => ([], c)
  | it :: rest =>
    let atRead := applyWrites c it.writesBeforeRead
    let slept := readCell atRead
    let afterSleep := applyWrites atRead it.writesDuringSleep
    let r := intervalRun afterSleep rest
    (slept :: r.1, r.2)

/-! ## Concrete fixtures used by the witness theorems -/

/-- A handle whose construction and reconnect both succeed. -/
def sampleHandle (id : String) : NativeWiimote :=
  { identifier := id, newResult := Except.ok (), reconnectResult := Except.ok () }

/-- A handle whose construction and reconnect both fail. -/
def failingHandle (id : String) : NativeWiimote :=
  { identifier := id,
    newResult := Except.error (WiimoteError.wiimoteDeviceError
      WiimoteDeviceError.missingData),
    reconnectResult := Except.error WiimoteError.disconnected }

/-- A fresh manager registry. -/
def emptyState : ManagerState := { seenDevices := [], nextId := 0 }

/-- A lock view on which every `try_lock` fails. -/
def noLocks : LockView := fun _ => none

/-- A lock view that obtains record 0's lock and reads its
manually-disconnected flag as true; every other lock fails. -/
def flaggedZero : LockView := fun r => if r = 0 then some true else none

end WiimoteRs

namespace WiimoteRs

/-! ## Registry lemmas -/

theorem lookupA_insertA_absent (l : List (String × RecId)) (k' : String)
    (v : RecId) (k : String) (habs : lookupA l k' = none) :
    lookupA (insertA l k' v) k = if k = k' then some v else lookupA l k := by
  have hfind : l.find? (fun p => p.1 = k') = none := by
    unfold lookupA at habs
    cases hf : l.find? (fun p => p.1 = k') with
    | none => rfl
    | some p => simp [hf] at habs
  unfold insertA
  rw [hfind]
  simp only [Option.isSome_none, Bool.false_eq_true, if_false]
  by_cases hk : k = k'
  · subst hk
    simp [lookupA, List.find?_append, hfind, List.find?]
  · have : ((k', v).1 = k) = False := by
      simp only [eq_iff_iff, iff_false]
      exact fun h => hk h.symm
    simp only [lookupA, List.find?_append, List.find?, this, decide_False]
    cases l.find? (fun p => p.1 = k) <;> simp [hk]

theorem lookupA_mem (l : List (String × RecId)) (k : String) (r : RecId)
    (h : lookupA l k = some r) : (k, r) ∈ l := by
  unfold lookupA at h
  cases hfind : l.find? (fun p => p.1 = k) with
  | none => simp [hfind] at h
  | some p =>
    simp only [hfind, Option.map_some] at h
    have hmem := List.mem_of_find?_eq_some hfind
    have hkey : p.1 = k := by
      have := List.find?_some hfind
      simpa using this
    have : p = (k, r) := by
      cases p with
      | mk a b => simp_all
    rwa [this] at hmem

/-! ## Prune lemmas -/

theorem pruneStep_lookup_none (lockView : LockView)
    (l : List (String × RecId)) (X : String)
    (h : lookupA l X = none) :
    lookupA (pruneStep lockView l) X = none := by
  induction l with
  | nil => simp [pruneStep, lookupA]
  | cons p t ih =>
    by_cases hp : p.1 = X
    · simp [lookupA, List.find?, hp] at h
    · simp only [lookupA, List.find?, hp, decide_False] at h
      simp only [pruneStep, List.filter]
      cases hlv : (match lockView p.2 with
        | none => true
        | some d => !d) with
      | false => exact ih h
      | true =>
        simp only [lookupA, List.find?, hp, decide_False]
        exact ih h

theorem pruneStep_keep (lockView : LockView)
    (l : List (String × RecId)) (X : String) (rid : RecId)
    (h : lookupA l X = some rid) (hflag : lockView rid ≠ some true) :
    lookupA (pruneStep lockView l) X = some rid := by
  induction l with
  | nil => simp [lookupA] at h
  | cons p t ih =>
    by_cases hp : p.1 = X
    · have hpr : p = (X, rid) := by
        cases p with
        | mk a b => simp [lookupA, List.find?, hp] at h; simp_all
      subst hpr
      have hkept : (match lockView rid with
          | none => true
          | some d => !d) = true := by
        cases hlv : lockView rid with
        | none => rfl
        | some d =>
          cases d with
          | false => rfl
          | true => exact absurd hlv hflag
      simp only [pruneStep, List.filter, hkept]
      simp [lookupA, List.find?]
    · simp only [lookupA, List.find?, hp, decide_False] at h
      simp only [pruneStep, List.filter]
      cases hlv : (match lockView p.2 with
        | none => true
        | some d => !d) with
      | false => exact ih h
      | true =>
        simp only [lookupA, List.find?, hp, decide_False]
        exact ih h

theorem pruneStep_remove (lockView : LockView)
    (l : List (String × RecId)) (X : String) (rid : RecId)
    (hnodup : (l.map Prod.fst).Nodup)
    (h : lookupA l X = some rid) (hflag : lockView rid = some true) :
    lookupA (pruneStep lockView l) X = none := by
  induction l with
  | nil => simp [lookupA] at h
  | cons p t ih =>
    by_cases hp : p.1 = X
    · have hpr : p = (X, rid) := by
        cases p with
        | mk a b => simp [lookupA, List.find?, hp] at h; simp_all
      subst hpr
      simp only [pruneStep, List.filter, hflag]
      simp only [Bool.not_true]
      have hXabs : lookupA t X = none := by
        simp only [List.map_cons, List.nodup_cons] at hnodup
        cases hfind : t.find? (fun p => p.1 = X) with
        | none => simp [lookupA, hfind]
        | some q =>
          exfalso
          have hq : q.1 = X := by
            have := List.find?_some hfind
            simpa using this
          have hqmem := List.mem_of_find?_eq_some hfind
          exact hnodup.1 (by
            rw [← hq]
            exact List.mem_map_of_mem Prod.fst hqmem)
      exact pruneStep_lookup_none lockView t X hXabs
    · simp only [lookupA, List.find?, hp, decide_False] at h
      simp only [List.map_cons, List.nodup_cons] at hnodup
      simp only [pruneStep, List.filter]
      cases hlv : (match lockView p.2 with
        | none => true
        | some d => !d) with
      | false => exact ih hnodup.2 h
      | true =>
        simp only [lookupA, List.find?, hp, decide_False]
        exact ih hnodup.2 h

/-! ## Reconcile-loop lemmas -/

/-- Reconciling while identifier `X` is already registered with record
`rid`: the binding survives untouched, no `X` record is published, and
every `X` handle takes the reconnect path on `rid`. -/
theorem reconcile_present (X : String) (rid : RecId) (s : ManagerState)
    (hs : List NativeWiimote)
    (hpres : lookupA s.seenDevices X = some rid) :
    lookupA (reconcileLoop s hs).1.seenDevices X = some rid ∧
    countNewX X (reconcileLoop s hs).2.1 = 0 ∧
    countConnectedX X (reconcileLoop s hs).2.2 = 0 ∧
    countReconnectX X (reconcileLoop s hs).2.2 = countIdent X hs ∧
    ∀ e ∈ (reconcileLoop s hs).2.2,
      isReconnectX X e = true → reconnectTarget e = rid := by
  induction hs generalizing s with
  | nil =>
    simp [reconcileLoop, countNewX, countConnectedX, countReconnectX,
      countIdent, hpres]
  | cons h rest ih =>
    cases hlook : lookupA s.seenDevices h.identifier with
    | some r' =>
      obtain ⟨ih1, ih2, ih3, ih4, ih5⟩ := ih s hpres
      by_cases hid : h.identifier = X
      · have hrid : r' = rid := by
          rw [hid] at hlook
          rw [hlook] at hpres
          simpa using hpres
        subst hrid
        cases hres : h.reconnectResult with
        | ok u =>
          simp only [reconcileLoop, hlook, hres]
          refine ⟨ih1, ih2, ?_, ?_, ?_⟩
          · simpa [countConnectedX, List.countP_cons] using ih3
          · simp only [countReconnectX, countIdent, List.countP_cons] at ih4 ⊢
            simp [hid, ih4, countReconnectX, countIdent]
          · intro e he hrec
            rcases List.mem_cons.mp he with he1 | he2
            · subst he1; simp [reconnectTarget]
            · exact ih5 e he2 hrec
        | error err =>
          simp only [reconcileLoop, hlook, hres]
          refine ⟨ih1, ih2, ?_, ?_, ?_⟩
          · simpa [countConnectedX, List.countP_cons] using ih3
          · simp only [countReconnectX, countIdent, List.countP_cons] at ih4 ⊢
            simp [hid, ih4, countReconnectX, countIdent]
          · intro e he hrec
            rcases List.mem_cons.mp he with he1 | he2
            · subst he1; simp [reconnectTarget]
            · exact ih5 e he2 hrec
      · cases hres : h.reconnectResult with
        | ok u =>
          simp only [reconcileLoop, hlook, hres]
          refine ⟨ih1, ih2, ?_, ?_, ?_⟩
          · simpa [countConnectedX, List.countP_cons] using ih3
          · simp only [countReconnectX, countIdent, List.countP_cons] at ih4 ⊢
            simp [hid, ih4, countReconnectX, countIdent]
          · intro e he hrec
            rcases List.mem_cons.mp he with he1 | he2
            · subst he1; simp [isReconnectX, hid] at hrec
            · exact ih5 e he2 hrec
        | error err =>
          simp only [reconcileLoop, hlook, hres]
          refine ⟨ih1, ih2, ?_, ?_, ?_⟩
          · simpa [countConnectedX, List.countP_cons] using ih3
          · simp only [countReconnectX, countIdent, List.countP_cons] at ih4 ⊢
            simp [hid, ih4, countReconnectX, countIdent]
          · intro e he hrec
            rcases List.mem_cons.mp he with he1 | he2
            · subst he1; simp [isReconnectX, hid] at hrec
            · exact ih5 e he2 hrec
    | none =>
      have hid : ¬(h.identifier = X) := by
        intro hcontra
        rw [hcontra] at hlook
        rw [hlook] at hpres
        exact Option.noConfusion hpres
      have hxid : ¬(X = h.identifier) := fun h' => hid h'.symm
      cases hnew : h.newResult with
      | ok u =>
        have hs2 : lookupA (insertA s.seenDevices h.identifier s.nextId)
            X = some rid := by
          rw [lookupA_insertA_absent _ _ _ _ hlook]
          simp [hxid, hpres]
        obtain ⟨ih1, ih2, ih3, ih4, ih5⟩ :=
          ih { seenDevices := insertA s.seenDevices h.identifier s.nextId,
               nextId := s.nextId + 1 } hs2
        simp only [reconcileLoop, hlook, hnew]
        refine ⟨ih1, ?_, ?_, ?_, ?_⟩
        · simpa [countNewX, List.countP_cons, hid] using ih2
        · simpa [countConnectedX, List.countP_cons, hid] using ih3
        · simp only [countReconnectX, countIdent, List.countP_cons] at ih4 ⊢
          simp [hid, ih4, countReconnectX, countIdent]
        · intro e he hrec
          rcases List.mem_cons.mp he with he1 | he2
          · subst he1; simp [isReconnectX] at hrec
          · exact ih5 e he2 hrec
      | error err =>
        obtain ⟨ih1, ih2, ih3, ih4, ih5⟩ := ih s hpres
        simp only [reconcileLoop, hlook, hnew]
        refine ⟨ih1, ih2, ?_, ?_, ?_⟩
        · simpa [countConnectedX, List.countP_cons] using ih3
        · simp only [countReconnectX, countIdent, List.countP_cons] at ih4 ⊢
          simp [hid, ih4, countReconnectX, countIdent]
        · intro e he hrec
          rcases List.mem_cons.mp he with he1 | he2
          · subst he1; simp [isReconnectX] at hrec
          · exact ih5 e he2 hrec

/-- Reconciling while identifier `X` is unregistered, with valid `X`
handles among which at least one occurs: the first `X` handle constructs
a fresh record (its identity at least the current allocation counter),
publishes it once, and every further `X` handle reconnects that same
record. -/
theorem reconcile_absent (X : String) (s : ManagerState)
    (hs : List NativeWiimote)
    (habs : lookupA s.seenDevices X = none)
    (hvalid : ∀ h ∈ hs, h.identifier = X → h.newResult = Except.ok ())
    (hpos : 1 ≤ countIdent X hs) :
    ∃ rid, s.nextId ≤ rid ∧
      lookupA (reconcileLoop s hs).1.seenDevices X = some rid ∧
      (X, rid) ∈ (reconcileLoop s hs).2.1 ∧
      countNewX X (reconcileLoop s hs).2.1 = 1 ∧
      ScanEvent.connected X rid ∈ (reconcileLoop s hs).2.2 ∧
      countConnectedX X (reconcileLoop s hs).2.2 = 1 ∧
      countReconnectX X (reconcileLoop s hs).2.2 = countIdent X hs - 1 ∧
      ∀ e ∈ (reconcileLoop s hs).2.2,
        isReconnectX X e = true → reconnectTarget e = rid := by
  induction hs generalizing s with
  | nil => simp [countIdent] at hpos
  | cons h rest ih =>
    by_cases hid : h.identifier = X
    · -- first sighting of X
      have hlook : lookupA s.seenDevices h.identifier = none := by
        rw [hid]; exact habs
      have hnew : h.newResult = Except.ok () :=
        hvalid h (List.mem_cons_self h rest) hid
      simp only [reconcileLoop, hlook, hnew]
      rw [hid]
      have hs2 : lookupA (insertA s.seenDevices X s.nextId) X =
          some s.nextId := by
        rw [lookupA_insertA_absent _ _ _ _ habs]
        simp
      obtain ⟨p1, p2, p3, p4, p5⟩ :=
        reconcile_present X s.nextId
          { seenDevices := insertA s.seenDevices X s.nextId,
            nextId := s.nextId + 1 } rest hs2
      refine ⟨s.nextId, Nat.le_refl _, p1, ?_, ?_, ?_, ?_, ?_, ?_⟩
      · exact List.mem_cons_self _ _
      · simp only [countNewX, List.countP_cons] at p2 ⊢
        simp [p2]
      · exact List.mem_cons_self _ _
      · simp only [countConnectedX, List.countP_cons] at p3 ⊢
        simp [p3]
      · simp only [countReconnectX, countIdent, List.countP_cons] at p4 ⊢
        simp [hid, p4]
      · intro e he hrec
        rcases List.mem_cons.mp he with he1 | he2
        · subst he1; simp [isReconnectX] at hrec
        · exact p5 e he2 hrec
    · -- h carries some other identifier
      have hpos' : 1 ≤ countIdent X rest := by
        simpa [countIdent, List.countP_cons, hid] using hpos
      have hvalid' : ∀ h' ∈ rest, h'.identifier = X →
          h'.newResult = Except.ok () :=
        fun h' hm => hvalid h' (List.mem_cons_of_mem _ hm)
      cases hlook : lookupA s.seenDevices h.identifier with
      | some r' =>
        obtain ⟨rid, hle, q1, q2, q3, q4, q5, q6, q7⟩ :=
          ih s habs hvalid' hpos'
        cases hres : h.reconnectResult with
        | ok u =>
          simp only [reconcileLoop, hlook, hres]
          refine ⟨rid, hle, q1, q2, q3, ?_, ?_, ?_, ?_⟩
          · exact List.mem_cons_of_mem _ q4
          · simp only [countConnectedX, List.countP_cons] at q5 ⊢
            simp [hid, countConnectedX, q5]
          · simp only [countReconnectX, countIdent, List.countP_cons] at q6 ⊢
            simp [hid, countReconnectX, countIdent, q6]
          · intro e he hrec
            rcases List.mem_cons.mp he with he1 | he2
            · subst he1; simp [isReconnectX, hid] at hrec
            · exact q7 e he2 hrec
        | error err =>
          simp only [reconcileLoop, hlook, hres]
          refine ⟨rid, hle, q1, q2, q3, ?_, ?_, ?_, ?_⟩
          · exact List.mem_cons_of_mem _ q4
          · simp only [countConnectedX, List.countP_cons] at q5 ⊢
            simp [hid, countConnectedX, q5]
          · simp only [countReconnectX, countIdent, List.countP_cons] at q6 ⊢
            simp [hid, countReconnectX, countIdent, q6]
          · intro e he hrec
            rcases List.mem_cons.mp he with he1 | he2
            · subst he1; simp [isReconnectX, hid] at hrec
            · exact q7 e he2 hrec
      | none =>
        have hxid : ¬(X = h.identifier) := fun h' => hid h'.symm
        cases hnew : h.newResult with
        | ok u =>
          have habs2 : lookupA
              (insertA s.seenDevices h.identifier s.nextId) X = none := by
            rw [lookupA_insertA_absent _ _ _ _ hlook]
            simp [hxid, habs]
          obtain ⟨rid, hle, q1, q2, q3, q4, q5, q6, q7⟩ :=
            ih { seenDevices := insertA s.seenDevices h.identifier s.nextId,
                 nextId := s.nextId + 1 } habs2 hvalid' hpos'
          simp only [reconcileLoop, hlook, hnew]
          refine ⟨rid, Nat.le_of_succ_le hle, q1, ?_, ?_, ?_, ?_, ?_, ?_⟩
          · exact List.mem_cons_of_mem _ q2
          · simp only [countNewX, List.countP_cons] at q3 ⊢
            simp [hid, countNewX, q3]
          · exact List.mem_cons_of_mem _ q4
          · simp only [countConnectedX, List.countP_cons] at q5 ⊢
            simp [hid, countConnectedX, q5]
          · simp only [countReconnectX, countIdent, List.countP_cons] at q6 ⊢
            simp [hid, countReconnectX, countIdent, q6]
          · intro e he hrec
            rcases List.mem_cons.mp he with he1 | he2
            · subst he1; simp [isReconnectX] at hrec
            · exact q7 e he2 hrec
        | error err =>
          obtain ⟨rid, hle, q1, q2, q3, q4, q5, q6, q7⟩ :=
            ih s habs hvalid' hpos'
          simp only [reconcileLoop, hlook, hnew]
          refine ⟨rid, hle, q1, q2, q3, ?_, ?_, ?_, ?_⟩
          · exact List.mem_cons_of_mem _ q4
          · simp only [countConnectedX, List.countP_cons] at q5 ⊢
            simp [hid, countConnectedX, q5]
          · simp only [countReconnectX, countIdent, List.countP_cons] at q6 ⊢
            simp [hid, countReconnectX, countIdent, q6]
          · intro e he hrec
            rcases List.mem_cons.mp he with he1 | he2
            · subst he1; simp [isReconnectX] at hrec
            · exact q7 e he2 hrec

/-! ## C5: prune removes exactly the unlocked, manually-disconnected
entries -/

/-- **C5.** During the prune step, a registry entry is removed if and only
if the non-blocking lock on its record succeeds (`lockView rid = some d`)
and the manually-disconnected flag `d` is true; an entry whose lock fails
is kept regardless, and no entry outside the registry appears. -/
theorem pruneStep_removes_iff (lockView : LockView)
    (reg : List (String × RecId)) (k : String) (rid : RecId)
    (hmem : (k, rid) ∈ reg) :
    ((k, rid) ∉ pruneStep lockView reg ↔ lockView rid = some true) ∧
    (lockView rid = none → (k, rid) ∈ pruneStep lockView reg) ∧
    ∀ p ∈ pruneStep lockView reg, p ∈ reg := by
  refine ⟨?_, ?_, ?_⟩
  · constructor
    · intro hnot
      by_contra hne
      apply hnot
      simp only [pruneStep, List.mem_filter]
      refine ⟨hmem, ?_⟩
      cases hlv : lockView rid with
      | none => simp
      | some d =>
        cases d with
        | false => simp
        | true => exact absurd hlv hne
    · intro hlv hmem'
      simp only [pruneStep, List.mem_filter, hlv] at hmem'
      simp at hmem'
  · intro hlv
    simp only [pruneStep, List.mem_filter]
    exact ⟨hmem, by simp [hlv]⟩
  · intro p hp
    exact (List.mem_filter.mp hp).1

/-- Witness for C5 at a concrete registry and lock view. -/
theorem pruneStep_removes_iff_witness :
    (("AA:11", 0) ∈ [(("AA:11" : String), (0 : RecId)), ("BB:22", 1)]) ∧
    ((("AA:11", 0) ∉
        pruneStep (fun r => if r = 0 then some true else none)
          [("AA:11", 0), ("BB:22", 1)] ↔
      (fun r => if r = 0 then some true else none) 0 = some true) ∧
     ((fun r => if r = 0 then some true else none) 0 = none →
        ("AA:11", 0) ∈
          pruneStep (fun r => if r = 0 then some true else none)
            [("AA:11", 0), ("BB:22", 1)]) ∧
     ∀ p ∈ pruneStep (fun r => if r = 0 then some true else none)
          [("AA:11", 0), ("BB:22", 1)],
        p ∈ [(("AA:11" : String), (0 : RecId)), ("BB:22", 1)]) := by
  refine ⟨by decide, ?_⟩
  exact pruneStep_removes_iff (fun r => if r = 0 then some true else none)
    [("AA:11", 0), ("BB:22", 1)] "AA:11" 0 (by decide)

/-! ## C10: duplicate identifiers within one provider result -/

/-- **C10.** Within a single scan call whose provider result repeats
identifier `X` (absent from the pruned registry, with valid handles):
exactly one `X` record is created and published — by the first
occurrence — and every later `X` occurrence in the same list takes the
reconnect path on that same record, so at most one record per identifier
is published in the iteration. -/
theorem scan_duplicate_identifiers (lockView : LockView) (s : ManagerState)
    (handles : List NativeWiimote) (X : String)
    (habs : lookupA (pruneStep lockView s.seenDevices) X = none)
    (hvalid : ∀ h ∈ handles, h.identifier = X → h.newResult = Except.ok ())
    (hpos : 1 ≤ countIdent X handles) :
    ∃ rid,
      ScanEvent.connected X rid ∈ (scan lockView handles s).2.2 ∧
      countNewX X (scan lockView handles s).2.1 = 1 ∧
      countConnectedX X (scan lockView handles s).2.2 = 1 ∧
      countReconnectX X (scan lockView handles s).2.2 =
        countIdent X handles - 1 ∧
      ∀ e ∈ (scan lockView handles s).2.2,
        isReconnectX X e = true → reconnectTarget e = rid := by
  obtain ⟨rid, _, _, _, q4, q5, q6, q7, q8⟩ :=
    reconcile_absent X
      { s with seenDevices := pruneStep lockView s.seenDevices }
      handles habs hvalid hpos
  exact ⟨rid, q5, q4, q6, q7, q8⟩

/-- Witness for C10: the provider returns "AA:11" twice in one scan. -/
theorem scan_duplicate_identifiers_witness :
    (lookupA (pruneStep noLocks emptyState.seenDevices) "AA:11" = none) ∧
    (∀ h ∈ [sampleHandle "AA:11", sampleHandle "AA:11"],
      h.identifier = "AA:11" → h.newResult = Except.ok ()) ∧
    (1 ≤ countIdent "AA:11" [sampleHandle "AA:11", sampleHandle "AA:11"]) ∧
    ∃ rid,
      ScanEvent.connected "AA:11" rid ∈
        (scan noLocks [sampleHandle "AA:11", sampleHandle "AA:11"]
          emptyState).2.2 ∧
      countNewX "AA:11"
        (scan noLocks [sampleHandle "AA:11", sampleHandle "AA:11"]
          emptyState).2.1 = 1 ∧
      countConnectedX "AA:11"
        (scan noLocks [sampleHandle "AA:11", sampleHandle "AA:11"]
          emptyState).2.2 = 1 ∧
      countReconnectX "AA:11"
        (scan noLocks [sampleHandle "AA:11", sampleHandle "AA:11"]
          emptyState).2.2 =
        countIdent "AA:11" [sampleHandle "AA:11", sampleHandle "AA:11"] - 1 ∧
      ∀ e ∈ (scan noLocks [sampleHandle "AA:11", sampleHandle "AA:11"]
          emptyState).2.2,
        isReconnectX "AA:11" e = true → reconnectTarget e = rid :=
  ⟨by decide, by decide, by decide,
    scan_duplicate_identifiers noLocks emptyState
      [sampleHandle "AA:11", sampleHandle "AA:11"] "AA:11"
      (by decide) (by decide) (by decide)⟩

/-! ## C6: prune-then-rediscover yields a new identity -/

/-- Reconciling without any `X` handle while `X` is unregistered keeps
`X` unregistered, publishes nothing for `X`, and never decreases the
allocation counter. -/
theorem reconcile_absent_skip (X : String) (s : ManagerState)
    (hs : List NativeWiimote)
    (habs : lookupA s.seenDevices X = none)
    (hno : countIdent X hs = 0) :
    lookupA (reconcileLoop s hs).1.seenDevices X = none ∧
    countNewX X (reconcileLoop s hs).2.1 = 0 ∧
    s.nextId ≤ (reconcileLoop s hs).1.nextId := by
  induction hs generalizing s with
  | nil => simp [reconcileLoop, countNewX, habs]
  | cons h rest ih =>
    have hid : ¬(h.identifier = X) := by
      intro hcontra
      simp [countIdent, List.countP_cons, hcontra] at hno
    have hno' : countIdent X rest = 0 := by
      simpa [countIdent, List.countP_cons, hid] using hno
    cases hlook : lookupA s.seenDevices h.identifier with
    | some r' =>
      obtain ⟨i1, i2, i3⟩ := ih s habs hno'
      cases hres : h.reconnectResult with
      | ok u =>
        simp only [reconcileLoop, hlook, hres]
        exact ⟨i1, i2, i3⟩
      | error e =>
        simp only [reconcileLoop, hlook, hres]
        exact ⟨i1, i2, i3⟩
    | none =>
      have hxid : ¬(X = h.identifier) := fun h' => hid h'.symm
      cases hnew : h.newResult with
      | ok u =>
        have habs2 : lookupA
            (insertA s.seenDevices h.identifier s.nextId) X = none := by
          rw [lookupA_insertA_absent _ _ _ _ hlook]
          simp [hxid, habs]
        obtain ⟨i1, i2, i3⟩ :=
          ih { seenDevices := insertA s.seenDevices h.identifier s.nextId,
               nextId := s.nextId + 1 } habs2 hno'
        have i3' : s.nextId + 1 ≤
            (reconcileLoop
              { seenDevices := insertA s.seenDevices h.identifier s.nextId,
                nextId := s.nextId + 1 } rest).1.nextId := i3
        simp only [reconcileLoop, hlook, hnew]
        refine ⟨i1, ?_, ?_⟩
        · simpa [countNewX, List.countP_cons, hid] using i2
        · exact Nat.le_trans (Nat.le_succ s.nextId) i3'
      | error e =>
        obtain ⟨i1, i2, i3⟩ := ih s habs hno'
        simp only [reconcileLoop, hlook, hnew]
        exact ⟨i1, i2, i3⟩

/-- While `X` is unregistered, a run of iterations without `X` followed
by one whose provider result contains a valid `X` handle publishes
nothing for `X` until the last iteration, which constructs a fresh
record — identity at least the current allocation counter — publishes
it once, and registers it. -/
theorem runScans_absent_until (X : String) (t : ManagerState)
    (mid : List IterInput) (itk : IterInput)
    (habs : lookupA t.seenDevices X = none)
    (hmid : ∀ it ∈ mid, countIdent X it.handles = 0)
    (hvalid : ∀ h ∈ itk.handles, h.identifier = X →
      h.newResult = Except.ok ())
    (hk : 1 ≤ countIdent X itk.handles) :
    ∃ rid' outs lastOut,
      runScans t (mid ++ [itk]) = outs ++ [lastOut] ∧
      t.nextId ≤ rid' ∧
      (∀ out ∈ outs, countNewX X out.1 = 0) ∧
      ScanEvent.connected X rid' ∈ lastOut.2 ∧
      (X, rid') ∈ lastOut.1 ∧
      countNewX X lastOut.1 = 1 ∧
      lookupA (finalState t (mid ++ [itk])).seenDevices X = some rid' := by
  induction mid generalizing t with
  | nil =>
    have hprune : lookupA (pruneStep itk.lockView t.seenDevices) X =
        none := pruneStep_lookup_none _ _ _ habs
    obtain ⟨rid', hle, q1, q2, q3, q4, _, _, _⟩ :=
      reconcile_absent X
        { t with seenDevices := pruneStep itk.lockView t.seenDevices }
        itk.handles hprune hvalid hk
    have hle' : t.nextId ≤ rid' := hle
    have q1' : lookupA (scan itk.lockView itk.handles t).1.seenDevices X =
        some rid' := q1
    refine ⟨rid', [],
      ((scan itk.lockView itk.handles t).2.1,
        (scan itk.lockView itk.handles t).2.2),
      by simp [runScans], hle', by simp, q4, q2, q3, ?_⟩
    simp only [List.nil_append, finalState]
    exact q1'
  | cons it rest ih =>
    have hprune : lookupA (pruneStep it.lockView t.seenDevices) X =
        none := pruneStep_lookup_none _ _ _ habs
    obtain ⟨a1, a2, a3⟩ := reconcile_absent_skip X
      { t with seenDevices := pruneStep it.lockView t.seenDevices }
      it.handles hprune (hmid it (List.mem_cons_self it rest))
    have a1' : lookupA (scan it.lockView it.handles t).1.seenDevices X =
        none := a1
    have a2' : countNewX X (scan it.lockView it.handles t).2.1 = 0 := a2
    have a3' : t.nextId ≤ (scan it.lockView it.handles t).1.nextId := a3
    obtain ⟨rid', outs', lastOut, hdec, hle, houts, hconn, hmem, hcnt,
      hfin⟩ := ih (scan it.lockView it.handles t).1 a1'
      (fun i hi => hmid i (List.mem_cons_of_mem _ hi))
    refine ⟨rid',
      ((scan it.lockView it.handles t).2.1,
        (scan it.lockView it.handles t).2.2) :: outs',
      lastOut, ?_, Nat.le_trans a3' hle, ?_, hconn, hmem, hcnt, ?_⟩
    · simp only [List.cons_append, runScans, List.append_eq]
      rw [hdec]
    · intro out hout
      rcases List.mem_cons.mp hout with hout1 | hout2
      · subst hout1
        exact a2'
      · exact houts out hout2
    · simp only [List.cons_append, finalState, List.append_eq]
      exact hfin

/-- **C6.** When the registry entry for `X` is observed manually
disconnected during a prune pass, it is removed before that iteration's
enumeration; and whenever the provider returns `X` again — in that same
scan, or on a later scan after any run of `X`-free iterations — a
structurally new record (an identity strictly newer than the removed
one, carrying no prior state) is constructed, registered, and published
on the channel again. -/
theorem prune_rediscover_fresh (s : ManagerState) (it0 : IterInput)
    (mid : List IterInput) (itk : IterInput) (X : String) (rid : RecId)
    (hnodup : (s.seenDevices.map Prod.fst).Nodup)
    (hwf : ∀ p ∈ s.seenDevices, p.2 < s.nextId)
    (hpres : lookupA s.seenDevices X = some rid)
    (hflag : it0.lockView rid = some true) :
    lookupA (pruneStep it0.lockView s.seenDevices) X = none ∧
    ((∀ h ∈ it0.handles, h.identifier = X → h.newResult = Except.ok ()) →
      1 ≤ countIdent X it0.handles →
      ∃ rid', rid' ≠ rid ∧
        ScanEvent.connected X rid' ∈
          (scan it0.lockView it0.handles s).2.2 ∧
        (X, rid') ∈ (scan it0.lockView it0.handles s).2.1 ∧
        lookupA (scan it0.lockView it0.handles s).1.seenDevices X =
          some rid') ∧
    (countIdent X it0.handles = 0 →
      (∀ it ∈ mid, countIdent X it.handles = 0) →
      (∀ h ∈ itk.handles, h.identifier = X →
        h.newResult = Except.ok ()) →
      1 ≤ countIdent X itk.handles →
      ∃ rid' outs lastOut,
        runScans s (it0 :: mid ++ [itk]) = outs ++ [lastOut] ∧
        rid' ≠ rid ∧
        (∀ out ∈ outs, countNewX X out.1 = 0) ∧
        ScanEvent.connected X rid' ∈ lastOut.2 ∧
        (X, rid') ∈ lastOut.1 ∧
        countNewX X lastOut.1 = 1 ∧
        lookupA (finalState s (it0 :: mid ++ [itk])).seenDevices X =
          some rid') := by
  have hrem := pruneStep_remove it0.lockView s.seenDevices X rid hnodup
    hpres hflag
  have hlt : rid < s.nextId := hwf _ (lookupA_mem _ _ _ hpres)
  refine ⟨hrem, ?_, ?_⟩
  · intro hvalid hpos
    obtain ⟨rid', hle, q1, q2, _, q4, _, _, _⟩ :=
      reconcile_absent X
        { s with seenDevices := pruneStep it0.lockView s.seenDevices }
        it0.handles hrem hvalid hpos
    have hle' : s.nextId ≤ rid' := hle
    exact ⟨rid', (Nat.ne_of_lt (Nat.lt_of_lt_of_le hlt hle')).symm,
      q4, q2, q1⟩
  · intro h0 hmid hvalid hk
    obtain ⟨a1, a2, a3⟩ := reconcile_absent_skip X
      { s with seenDevices := pruneStep it0.lockView s.seenDevices }
      it0.handles hrem h0
    have a1' : lookupA (scan it0.lockView it0.handles s).1.seenDevices X =
        none := a1
    have a2' : countNewX X (scan it0.lockView it0.handles s).2.1 = 0 := a2
    have a3' : s.nextId ≤ (scan it0.lockView it0.handles s).1.nextId := a3
    obtain ⟨rid', outs', lastOut, hdec, hle, houts, hconn, hmem, hcnt,
      hfin⟩ := runScans_absent_until X (scan it0.lockView it0.handles s).1
      mid itk a1' hmid hvalid hk
    refine ⟨rid',
      ((scan it0.lockView it0.handles s).2.1,
        (scan it0.lockView it0.handles s).2.2) :: outs',
      lastOut, ?_,
      (Nat.ne_of_lt (Nat.lt_of_lt_of_le hlt
        (Nat.le_trans a3' hle))).symm, ?_, hconn, hmem, hcnt, ?_⟩
    · simp only [List.cons_append, runScans, List.append_eq]
      rw [hdec]
    · intro out hout
      rcases List.mem_cons.mp hout with hout1 | hout2
      · subst hout1
        exact a2'
      · exact houts out hout2
    · simp only [List.cons_append, finalState, List.append_eq]
      exact hfin

/-- Witness for C6: "AA:11" is registered as record 0 and observed
manually disconnected in an iteration that does not return it; after an
intervening scan returning only "BB:22", a later scan returns "AA:11"
again. -/
theorem prune_rediscover_fresh_witness :
    (([(("AA:11" : String), (0 : RecId))].map Prod.fst).Nodup) ∧
    (∀ p ∈ [(("AA:11" : String), (0 : RecId))], p.2 < 1) ∧
    (lookupA [("AA:11", 0)] "AA:11" = some 0) ∧
    ((IterInput.mk flaggedZero []).lockView 0 = some true) ∧
    (lookupA (pruneStep (IterInput.mk flaggedZero []).lockView
        [("AA:11", 0)]) "AA:11" = none ∧
      ((∀ h ∈ (IterInput.mk flaggedZero []).handles,
          h.identifier = "AA:11" → h.newResult = Except.ok ()) →
        1 ≤ countIdent "AA:11" (IterInput.mk flaggedZero []).handles →
        ∃ rid', rid' ≠ 0 ∧
          ScanEvent.connected "AA:11" rid' ∈
            (scan (IterInput.mk flaggedZero []).lockView
              (IterInput.mk flaggedZero []).handles
              { seenDevices := [("AA:11", 0)], nextId := 1 }).2.2 ∧
          ("AA:11", rid') ∈
            (scan (IterInput.mk flaggedZero []).lockView
              (IterInput.mk flaggedZero []).handles
              { seenDevices := [("AA:11", 0)], nextId := 1 }).2.1 ∧
          lookupA (scan (IterInput.mk flaggedZero []).lockView
              (IterInput.mk flaggedZero []).handles
              { seenDevices := [("AA:11", 0)], nextId := 1 }).1.seenDevices
            "AA:11" = some rid') ∧
      (countIdent "AA:11" (IterInput.mk flaggedZero []).handles = 0 →
        (∀ it ∈ [IterInput.mk noLocks [sampleHandle "BB:22"]],
          countIdent "AA:11" it.handles = 0) →
        (∀ h ∈ (IterInput.mk noLocks [sampleHandle "AA:11"]).handles,
          h.identifier = "AA:11" → h.newResult = Except.ok ()) →
        1 ≤ countIdent "AA:11"
          (IterInput.mk noLocks [sampleHandle "AA:11"]).handles →
        ∃ rid' outs lastOut,
          runScans { seenDevices := [("AA:11", 0)], nextId := 1 }
            (IterInput.mk flaggedZero [] ::
              [IterInput.mk noLocks [sampleHandle "BB:22"]] ++
              [IterInput.mk noLocks [sampleHandle "AA:11"]]) =
            outs ++ [lastOut] ∧
          rid' ≠ 0 ∧
          (∀ out ∈ outs, countNewX "AA:11" out.1 = 0) ∧
          ScanEvent.connected "AA:11" rid' ∈ lastOut.2 ∧
          ("AA:11", rid') ∈ lastOut.1 ∧
          countNewX "AA:11" lastOut.1 = 1 ∧
          lookupA (finalState { seenDevices := [("AA:11", 0)], nextId := 1 }
              (IterInput.mk flaggedZero [] ::
                [IterInput.mk noLocks [sampleHandle "BB:22"]] ++
                [IterInput.mk noLocks [sampleHandle "AA:11"]])).seenDevices
            "AA:11" = some rid')) :=
  ⟨by decide, by decide, by decide, by decide,
    prune_rediscover_fresh
      { seenDevices := [("AA:11", 0)], nextId := 1 }
      (IterInput.mk flaggedZero [])
      [IterInput.mk noLocks [sampleHandle "BB:22"]]
      (IterInput.mk noLocks [sampleHandle "AA:11"]) "AA:11" 0
      (by decide) (by decide) (by decide) (by decide)⟩

/-! ## C8: the receiver can be claimed at most once -/

/-- **C8.** The channel's receiving end is claimed at most once: starting
from a freshly constructed manager, the first `new_devices_receiver`
call yields the receiver and every one of the `n` subsequent calls
yields `none`, never a second stream. -/
theorem receiver_claimed_once {R : Type} (receiver : R) (n : Nat) :
    runReceiverCalls (initialReceiverSlot receiver) (n + 1) =
      some receiver :: List.replicate n none := by
  have haux : ∀ m : Nat, runReceiverCalls (none : Option R) m =
      List.replicate m none := by
    intro m
    induction m with
    | zero => simp [runReceiverCalls]
    | succ k ih =>
      simp [runReceiverCalls, newDevicesReceiver, ih, List.replicate_succ]
  simp [runReceiverCalls, newDevicesReceiver, initialReceiverSlot, haux n]

/-! ## C7: per-device failures are isolated -/

theorem reconcileLoop_append (s : ManagerState) (a b : List NativeWiimote) :
    reconcileLoop s (a ++ b) =
      ((reconcileLoop (reconcileLoop s a).1 b).1,
        (reconcileLoop s a).2.1 ++ (reconcileLoop (reconcileLoop s a).1 b).2.1,
        (reconcileLoop s a).2.2 ++
          (reconcileLoop (reconcileLoop s a).1 b).2.2) := by
  induction a generalizing s with
  | nil => simp [reconcileLoop]
  | cons h rest ih =>
    cases hlook : lookupA s.seenDevices h.identifier with
    | some rid =>
      cases hres : h.reconnectResult with
      | ok u => simp [reconcileLoop, hlook, hres, ih]
      | error e => simp [reconcileLoop, hlook, hres, ih]
    | none =>
      cases hnew : h.newResult with
      | ok u => simp [reconcileLoop, hlook, hnew, ih]
      | error e => simp [reconcileLoop, hlook, hnew, ih]

/-- **C7.** A handle `h` whose construction (when its identifier is
unregistered at its turn) or reconnect (when registered) fails is logged
and skipped: the scan of the full list reaches the same final registry
state and publishes the same records as the scan without `h`, with a
single extra diagnostic event in place — in particular a construction
failure creates no registry entry, and no other handle's processing is
affected. -/
theorem scan_failure_isolated (lockView : LockView) (s : ManagerState)
    (l1 l2 : List NativeWiimote) (h : NativeWiimote) (e : WiimoteError)
    (hfail :
      (lookupA (reconcileLoop
          { s with seenDevices := pruneStep lockView s.seenDevices }
          l1).1.seenDevices h.identifier = none ∧
        h.newResult = Except.error e) ∨
      (∃ rid, lookupA (reconcileLoop
          { s with seenDevices := pruneStep lockView s.seenDevices }
          l1).1.seenDevices h.identifier = some rid ∧
        h.reconnectResult = Except.error e)) :
    (scan lockView (l1 ++ h :: l2) s).1 = (scan lockView (l1 ++ l2) s).1 ∧
    (scan lockView (l1 ++ h :: l2) s).2.1 =
      (scan lockView (l1 ++ l2) s).2.1 ∧
    ∃ ev evs2,
      ((ev = ScanEvent.connectFailed h.identifier e) ∨
        ∃ rid, ev = ScanEvent.reconnectFailed h.identifier rid e) ∧
      (scan lockView (l1 ++ h :: l2) s).2.2 =
        (reconcileLoop
          { s with seenDevices := pruneStep lockView s.seenDevices }
          l1).2.2 ++ ev :: evs2 ∧
      (scan lockView (l1 ++ l2) s).2.2 =
        (reconcileLoop
          { s with seenDevices := pruneStep lockView s.seenDevices }
          l1).2.2 ++ evs2 := by
  rcases hfail with ⟨hlook, hnew⟩ | ⟨rid, hlook, hres⟩
  · have hstep : reconcileLoop
        (reconcileLoop
          { s with seenDevices := pruneStep lockView s.seenDevices } l1).1
        (h :: l2) =
          ((reconcileLoop (reconcileLoop
              { s with seenDevices := pruneStep lockView s.seenDevices }
              l1).1 l2).1,
            (reconcileLoop (reconcileLoop
              { s with seenDevices := pruneStep lockView s.seenDevices }
              l1).1 l2).2.1,
            ScanEvent.connectFailed h.identifier e ::
              (reconcileLoop (reconcileLoop
                { s with seenDevices := pruneStep lockView s.seenDevices }
                l1).1 l2).2.2) := by
      simp only [reconcileLoop, hlook, hnew]
    unfold scan
    rw [reconcileLoop_append, reconcileLoop_append, hstep]
    exact ⟨rfl, rfl, ScanEvent.connectFailed h.identifier e,
      (reconcileLoop (reconcileLoop
        { s with seenDevices := pruneStep lockView s.seenDevices }
        l1).1 l2).2.2,
      Or.inl rfl, rfl, rfl⟩
  · have hstep : reconcileLoop
        (reconcileLoop
          { s with seenDevices := pruneStep lockView s.seenDevices } l1).1
        (h :: l2) =
          ((reconcileLoop (reconcileLoop
              { s with seenDevices := pruneStep lockView s.seenDevices }
              l1).1 l2).1,
            (reconcileLoop (reconcileLoop
              { s with seenDevices := pruneStep lockView s.seenDevices }
              l1).1 l2).2.1,
            ScanEvent.reconnectFailed h.identifier rid e ::
              (reconcileLoop (reconcileLoop
                { s with seenDevices := pruneStep lockView s.seenDevices }
                l1).1 l2).2.2) := by
      simp only [reconcileLoop, hlook, hres]
    unfold scan
    rw [reconcileLoop_append, reconcileLoop_append, hstep]
    exact ⟨rfl, rfl, ScanEvent.reconnectFailed h.identifier rid e,
      (reconcileLoop (reconcileLoop
        { s with seenDevices := pruneStep lockView s.seenDevices }
        l1).1 l2).2.2,
      Or.inr ⟨rid, rfl⟩, rfl, rfl⟩

/-- Witness for C7: a failing handle for "CC:33" sits between the valid
handles "AA:11" and "BB:22"; both neighbours are processed as without
it. -/
theorem scan_failure_isolated_witness :
    (lookupA (reconcileLoop
        { emptyState with
          seenDevices := pruneStep noLocks emptyState.seenDevices }
        [sampleHandle "AA:11"]).1.seenDevices
        (failingHandle "CC:33").identifier = none ∧
      (failingHandle "CC:33").newResult =
        Except.error (WiimoteError.wiimoteDeviceError
          WiimoteDeviceError.missingData)) ∧
    (scan noLocks
        [sampleHandle "AA:11", failingHandle "CC:33", sampleHandle "BB:22"]
        emptyState).1 =
      (scan noLocks [sampleHandle "AA:11", sampleHandle "BB:22"]
        emptyState).1 ∧
    (scan noLocks
        [sampleHandle "AA:11", failingHandle "CC:33", sampleHandle "BB:22"]
        emptyState).2.1 =
      (scan noLocks [sampleHandle "AA:11", sampleHandle "BB:22"]
        emptyState).2.1 ∧
    ∃ ev evs2,
      ((ev = ScanEvent.connectFailed (failingHandle "CC:33").identifier
          (WiimoteError.wiimoteDeviceError WiimoteDeviceError.missingData)) ∨
        ∃ rid, ev = ScanEvent.reconnectFailed
          (failingHandle "CC:33").identifier rid
          (WiimoteError.wiimoteDeviceError WiimoteDeviceError.missingData)) ∧
      (scan noLocks
          [sampleHandle "AA:11", failingHandle "CC:33", sampleHandle "BB:22"]
          emptyState).2.2 =
        (reconcileLoop
          { emptyState with
            seenDevices := pruneStep noLocks emptyState.seenDevices }
          [sampleHandle "AA:11"]).2.2 ++ ev :: evs2 ∧
      (scan noLocks [sampleHandle "AA:11", sampleHandle "BB:22"]
          emptyState).2.2 =
        (reconcileLoop
          { emptyState with
            seenDevices := pruneStep noLocks emptyState.seenDevices }
          [sampleHandle "AA:11"]).2.2 ++ evs2 :=
  ⟨⟨by decide, by decide⟩,
    scan_failure_isolated noLocks emptyState
      [sampleHandle "AA:11"] [sampleHandle "BB:22"]
      (failingHandle "CC:33")
      (WiimoteError.wiimoteDeviceError WiimoteDeviceError.missingData)
      (Or.inl ⟨by decide, by decide⟩)⟩

/-! ## C2: idempotent rediscovery across iterations -/

/-- While identifier `X` stays registered as record `rid` and is never
observed manually disconnected, every iteration that sees `X` exactly
once publishes nothing for `X`, constructs nothing for `X`, and invokes
reconnect exactly once; the binding survives every iteration. -/
theorem runScans_present (X : String) (rid : RecId) (s : ManagerState)
    (inputs : List IterInput)
    (hpres : lookupA s.seenDevices X = some rid)
    (hcount : ∀ it ∈ inputs, countIdent X it.handles = 1)
    (hkeep : ∀ p ∈ (statesOf s inputs).zip inputs, ∀ r,
      lookupA p.1.seenDevices X = some r → p.2.lockView r ≠ some true) :
    (∀ out ∈ runScans s inputs,
      countNewX X out.1 = 0 ∧ countConnectedX X out.2 = 0 ∧
        countReconnectX X out.2 = 1 ∧
        ∀ e ∈ out.2, isReconnectX X e = true → reconnectTarget e = rid) ∧
    ∀ s' ∈ statesOf s inputs, lookupA s'.seenDevices X = some rid := by
  induction inputs generalizing s with
  | nil =>
    refine ⟨by simp [runScans], ?_⟩
    intro s' hs'
    simp only [statesOf, List.mem_singleton] at hs'
    subst hs'
    exact hpres
  | cons it rest ih =>
    have hmem0 : ((s, it) : ManagerState × IterInput) ∈
        (statesOf s (it :: rest)).zip (it :: rest) := by
      simp only [statesOf, List.zip_cons_cons]
      exact List.mem_cons_self _ _
    have hk0 : it.lockView rid ≠ some true := hkeep (s, it) hmem0 rid hpres
    have hkept : lookupA (pruneStep it.lockView s.seenDevices) X =
        some rid := pruneStep_keep _ _ _ _ hpres hk0
    obtain ⟨p1, p2, p3, p4, p5⟩ :=
      reconcile_present X rid
        { s with seenDevices := pruneStep it.lockView s.seenDevices }
        it.handles hkept
    have p1' : lookupA (scan it.lockView it.handles s).1.seenDevices X =
        some rid := p1
    have hkeep' : ∀ p ∈ (statesOf (scan it.lockView it.handles s).1
        rest).zip rest, ∀ r,
        lookupA p.1.seenDevices X = some r →
          p.2.lockView r ≠ some true := by
      intro p hp r hr
      refine hkeep p ?_ r hr
      simp only [statesOf, List.zip_cons_cons]
      exact List.mem_cons_of_mem _ hp
    obtain ⟨w1, w2⟩ := ih (scan it.lockView it.handles s).1 p1'
      (fun i hi => hcount i (List.mem_cons_of_mem _ hi)) hkeep'
    constructor
    · intro out hout
      simp only [runScans, List.mem_cons] at hout
      rcases hout with hout1 | hout2
      · subst hout1
        have hc0 : countIdent X it.handles = 1 :=
          hcount it (List.mem_cons_self it rest)
        have p4' : countReconnectX X
            (scan it.lockView it.handles s).2.2 = countIdent X it.handles := p4
        have p5' : ∀ e ∈ (scan it.lockView it.handles s).2.2,
            isReconnectX X e = true → reconnectTarget e = rid := p5
        refine ⟨p2, p3, ?_, p5'⟩
        rw [p4']
        exact hc0
      · exact w1 out hout2
    · intro s' hs'
      simp only [statesOf, List.mem_cons] at hs'
      rcases hs' with hs1 | hs2
      · subst hs1; exact hpres
      · exact w2 s' hs2

/-- **C2.** If identifier `X`, initially unregistered, is returned by the
provider exactly once on each of `1 + n` consecutive scans with a valid
handle, and its record is never observed manually disconnected during a
prune, then `X` is published exactly once — on the first sighting, which
also performs the only registry insertion — and each of the remaining
`n` sightings invokes reconnect exactly once on the existing record,
publishing and constructing nothing. -/
theorem idempotent_rediscovery (s0 : ManagerState) (first : IterInput)
    (rest : List IterInput) (X : String)
    (habs : lookupA s0.seenDevices X = none)
    (hc1 : countIdent X first.handles = 1)
    (hcr : ∀ it ∈ rest, countIdent X it.handles = 1)
    (hvalid : ∀ h ∈ first.handles, h.identifier = X →
      h.newResult = Except.ok ())
    (hkeep : ∀ p ∈ (statesOf s0 (first :: rest)).zip (first :: rest), ∀ r,
      lookupA p.1.seenDevices X = some r → p.2.lockView r ≠ some true) :
    ∃ rid firstOut outs,
      runScans s0 (first :: rest) = firstOut :: outs ∧
      (X, rid) ∈ firstOut.1 ∧
      ScanEvent.connected X rid ∈ firstOut.2 ∧
      countNewX X firstOut.1 = 1 ∧
      countConnectedX X firstOut.2 = 1 ∧
      countReconnectX X firstOut.2 = 0 ∧
      (∀ out ∈ outs, countNewX X out.1 = 0 ∧ countConnectedX X out.2 = 0 ∧
        countReconnectX X out.2 = 1 ∧
        ∀ e ∈ out.2, isReconnectX X e = true → reconnectTarget e = rid) ∧
      ∀ s' ∈ (statesOf s0 (first :: rest)).tail,
        lookupA s'.seenDevices X = some rid := by
  have habs' : lookupA (pruneStep first.lockView s0.seenDevices) X = none :=
    pruneStep_lookup_none _ _ _ habs
  obtain ⟨rid, _, q1, q2, q3, q4, q5, q6, q7⟩ :=
    reconcile_absent X
      { s0 with seenDevices := pruneStep first.lockView s0.seenDevices }
      first.handles habs' hvalid (by omega)
  have q1' : lookupA (scan first.lockView first.handles s0).1.seenDevices
      X = some rid := q1
  have hkeep' : ∀ p ∈ (statesOf (scan first.lockView first.handles s0).1
      rest).zip rest, ∀ r,
      lookupA p.1.seenDevices X = some r →
        p.2.lockView r ≠ some true := by
    intro p hp r hr
    refine hkeep p ?_ r hr
    simp only [statesOf, List.zip_cons_cons]
    exact List.mem_cons_of_mem _ hp
  obtain ⟨w1, w2⟩ := runScans_present X rid
    (scan first.lockView first.handles s0).1 rest q1' hcr hkeep'
  refine ⟨rid,
    ((scan first.lockView first.handles s0).2.1,
      (scan first.lockView first.handles s0).2.2),
    runScans (scan first.lockView first.handles s0).1 rest,
    by simp [runScans], q2, q4, q3, q5, ?_, w1, ?_⟩
  · have q6' : countReconnectX X
        (scan first.lockView first.handles s0).2.2 =
          countIdent X first.handles - 1 := q6
    rw [q6', hc1]
  · intro s' hs'
    simp only [statesOf, List.tail_cons] at hs'
    exact w2 s' hs'

/-- Witness for C2: "AA:11" is seen on two consecutive scans of a fresh
manager; no lock is ever obtained during prune. -/
theorem idempotent_rediscovery_witness :
    (lookupA emptyState.seenDevices "AA:11" = none) ∧
    (countIdent "AA:11"
      (IterInput.mk noLocks [sampleHandle "AA:11"]).handles = 1) ∧
    (∀ it ∈ [IterInput.mk noLocks [sampleHandle "AA:11"]],
      countIdent "AA:11" it.handles = 1) ∧
    (∀ h ∈ (IterInput.mk noLocks [sampleHandle "AA:11"]).handles,
      h.identifier = "AA:11" → h.newResult = Except.ok ()) ∧
    (∀ p ∈ (statesOf emptyState
        [IterInput.mk noLocks [sampleHandle "AA:11"],
          IterInput.mk noLocks [sampleHandle "AA:11"]]).zip
        [IterInput.mk noLocks [sampleHandle "AA:11"],
          IterInput.mk noLocks [sampleHandle "AA:11"]], ∀ r,
      lookupA p.1.seenDevices "AA:11" = some r →
        p.2.lockView r ≠ some true) ∧
    ∃ rid firstOut outs,
      runScans emptyState
        [IterInput.mk noLocks [sampleHandle "AA:11"],
          IterInput.mk noLocks [sampleHandle "AA:11"]] =
        firstOut :: outs ∧
      ("AA:11", rid) ∈ firstOut.1 ∧
      ScanEvent.connected "AA:11" rid ∈ firstOut.2 ∧
      countNewX "AA:11" firstOut.1 = 1 ∧
      countConnectedX "AA:11" firstOut.2 = 1 ∧
      countReconnectX "AA:11" firstOut.2 = 0 ∧
      (∀ out ∈ outs, countNewX "AA:11" out.1 = 0 ∧
        countConnectedX "AA:11" out.2 = 0 ∧
        countReconnectX "AA:11" out.2 = 1 ∧
        ∀ e ∈ out.2, isReconnectX "AA:11" e = true →
          reconnectTarget e = rid) ∧
      ∀ s' ∈ (statesOf emptyState
          [IterInput.mk noLocks [sampleHandle "AA:11"],
            IterInput.mk noLocks [sampleHandle "AA:11"]]).tail,
        lookupA s'.seenDevices "AA:11" = some rid :=
  ⟨by decide, by decide, by decide, by decide,
    by
      intro p hp r hr
      obtain ⟨sp, itp⟩ := p
      have h2 := (List.of_mem_zip hp).2
      simp only [List.mem_cons, List.not_mem_nil, or_false] at h2
      rcases h2 with h2 | h2 <;> (subst h2; simp [noLocks]),
    idempotent_rediscovery emptyState
      (IterInput.mk noLocks [sampleHandle "AA:11"])
      [IterInput.mk noLocks [sampleHandle "AA:11"]] "AA:11"
      (by decide) (by decide) (by decide) (by decide)
      (by
        intro p hp r hr
        obtain ⟨sp, itp⟩ := p
        have h2 := (List.of_mem_zip hp).2
        simp only [List.mem_cons, List.not_mem_nil, or_false] at h2
        rcases h2 with h2 | h2 <;> (subst h2; simp [noLocks]))⟩

/-! ## C9: channel closure terminates the scheduler -/

/-- **C9.** Once the consumer side of the channel is gone, the first
iteration whose publish step actually attempts a send (it discovered at
least one device) observes the failure and returns from the thread body:
the run's outcome is independent of any further queued iterations (none
are performed), the exit is the plain `return` on channel closure — not
an error reported to a caller — and nothing beyond the earlier
iterations' discoveries is ever delivered. -/
theorem scheduler_stops_on_closed_channel (s0 : ManagerState)
    (l1 : List LoopInput) (inp : LoopInput) (l2 : List LoopInput)
    (h1 : ∀ it ∈ l1, it.alive = true ∧ it.receiverAlive = true)
    (ha : inp.alive = true) (hc : inp.receiverAlive = false)
    (hnew : (scan inp.lockView inp.handles
      (stateAfterIters s0 l1)).2.1 ≠ []) :
    schedulerLoop s0 (l1 ++ inp :: l2) = schedulerLoop s0 (l1 ++ [inp]) ∧
    (schedulerLoop s0 (l1 ++ inp :: l2)).2.2 = LoopExit.channelClosed ∧
    (schedulerLoop s0 (l1 ++ inp :: l2)).2.1 =
      (schedulerLoop s0 l1).2.1 := by
  induction l1 generalizing s0 with
  | nil =>
    have hne : (scan inp.lockView inp.handles s0).2.1.isEmpty = false := by
      simp only [stateAfterIters] at hnew
      simpa [List.isEmpty_iff] using hnew
    refine ⟨?_, ?_, ?_⟩ <;>
      simp [schedulerLoop, ha, hc, hne]
  | cons it t ih =>
    have hal : it.alive = true := (h1 it (List.mem_cons_self it t)).1
    have hrc : it.receiverAlive = true := (h1 it (List.mem_cons_self it t)).2
    have h1' : ∀ i ∈ t, i.alive = true ∧ i.receiverAlive = true :=
      fun i hi => h1 i (List.mem_cons_of_mem _ hi)
    have hnew' : (scan inp.lockView inp.handles
        (stateAfterIters (scan it.lockView it.handles s0).1 t)).2.1 ≠ [] := by
      simpa [stateAfterIters] using hnew
    obtain ⟨g1, g2, g3⟩ := ih (scan it.lockView it.handles s0).1 h1' hnew'
    refine ⟨?_, ?_, ?_⟩
    · simp only [List.cons_append, schedulerLoop, hal, hrc, if_true,
        List.append_eq]
      rw [g1]
    · simp only [List.cons_append, schedulerLoop, hal, hrc, if_true,
        List.append_eq]
      exact g2
    · simp only [List.cons_append, schedulerLoop, hal, hrc, if_true,
        List.append_eq]
      rw [g3]

/-- Witness for C9: the receiver is gone in the very first iteration,
which discovers "AA:11"; a queued second iteration is never reached. -/
theorem scheduler_stops_on_closed_channel_witness :
    (∀ it ∈ ([] : List LoopInput),
      it.alive = true ∧ it.receiverAlive = true) ∧
    (LoopInput.mk true noLocks [sampleHandle "AA:11"] false).alive = true ∧
    (LoopInput.mk true noLocks [sampleHandle "AA:11"] false).receiverAlive
      = false ∧
    ((scan noLocks [sampleHandle "AA:11"]
      (stateAfterIters emptyState [])).2.1 ≠ []) ∧
    (schedulerLoop emptyState
        ([] ++ LoopInput.mk true noLocks [sampleHandle "AA:11"] false ::
          [LoopInput.mk true noLocks [] true]) =
      schedulerLoop emptyState
        ([] ++ [LoopInput.mk true noLocks [sampleHandle "AA:11"] false]) ∧
    (schedulerLoop emptyState
        ([] ++ LoopInput.mk true noLocks [sampleHandle "AA:11"] false ::
          [LoopInput.mk true noLocks [] true])).2.2 =
      LoopExit.channelClosed ∧
    (schedulerLoop emptyState
        ([] ++ LoopInput.mk true noLocks [sampleHandle "AA:11"] false ::
          [LoopInput.mk true noLocks [] true])).2.1 =
      (schedulerLoop emptyState []).2.1) :=
  ⟨by decide, by decide, by decide, by decide,
    scheduler_stops_on_closed_channel emptyState []
      (LoopInput.mk true noLocks [sampleHandle "AA:11"] false)
      [LoopInput.mk true noLocks [] true]
      (by decide) (by decide) (by decide) (by decide)⟩

/-! ## C1: bounded channel with overflow is FIFO and lossless -/

theorem publishStep_full (c : BoundedChannel) (pending : List RecId)
    (hfull : c.cap ≤ c.queue.length) :
    publishStep c pending = (c, pending) := by
  induction pending with
  | nil => simp [publishStep]
  | cons x rest ih =>
    have hlt : ¬(c.queue.length < c.cap) := by omega
    simp [publishStep, tryPush, hlt, ih]

theorem publishStep_spec (c : BoundedChannel) (pending : List RecId) :
    (publishStep c pending).1.cap = c.cap ∧
    (publishStep c pending).1.queue ++ (publishStep c pending).2 =
      c.queue ++ pending ∧
    (publishStep c pending).1.queue.length ≤
      max c.queue.length c.cap := by
  induction pending generalizing c with
  | nil => simp [publishStep]
  | cons x rest ih =>
    by_cases hlt : c.queue.length < c.cap
    · have hpush : tryPush c x =
          some { c with queue := c.queue ++ [x] } := by
        simp [tryPush, hlt]
      obtain ⟨i1, i2, i3⟩ := ih { c with queue := c.queue ++ [x] }
      refine ⟨?_, ?_, ?_⟩
      · simpa [publishStep, hpush] using i1
      · simp only [publishStep, hpush]
        simpa using i2
      · simp only [publishStep, hpush]
        refine le_trans i3 ?_
        simp only [List.length_append, List.length_singleton]
        omega
    · have hpush : tryPush c x = none := by simp [tryPush, hlt]
      have hfull := publishStep_full c rest (by omega)
      refine ⟨?_, ?_, ?_⟩ <;> simp [publishStep, hpush, hfull]

/-- Cap preservation, the conservation law (everything consumed, in
channel, or buffered equals everything discovered, in order), and
boundedness, over a whole delivery run. -/
theorem deliveryRun_inv (d : DeliveryState)
    (trace : List (Nat × List RecId))
    (hcap : d.chan.queue.length ≤ d.chan.cap) :
    (deliveryRun d trace).chan.cap = d.chan.cap ∧
    (deliveryRun d trace).consumed ++ (deliveryRun d trace).chan.queue ++
      (deliveryRun d trace).overflow =
      d.consumed ++ d.chan.queue ++ d.overflow ++ allDiscoveries trace ∧
    (deliveryRun d trace).chan.queue.length ≤ d.chan.cap := by
  induction trace generalizing d with
  | nil => simp [deliveryRun, allDiscoveries, hcap]
  | cons inp rest ih =>
    obtain ⟨s1, s2, s3⟩ := publishStep_spec
      { cap := d.chan.cap, queue := d.chan.queue.drop inp.1 }
      (d.overflow ++ inp.2)
    have s2' : (publishStep
        { cap := d.chan.cap, queue := d.chan.queue.drop inp.1 }
        (d.overflow ++ inp.2)).1.queue ++
        (publishStep
          { cap := d.chan.cap, queue := d.chan.queue.drop inp.1 }
          (d.overflow ++ inp.2)).2 =
        d.chan.queue.drop inp.1 ++ (d.overflow ++ inp.2) := s2
    have s3' : (publishStep
        { cap := d.chan.cap, queue := d.chan.queue.drop inp.1 }
        (d.overflow ++ inp.2)).1.queue.length ≤
        (d.chan.queue.drop inp.1).length ⊔ d.chan.cap := s3
    have hd1cap : (deliveryIter d inp).chan.cap = d.chan.cap := by
      simpa [deliveryIter, consumerPop] using s1
    have hd1len : (deliveryIter d inp).chan.queue.length ≤ d.chan.cap := by
      have h4 : (d.chan.queue.drop inp.1).length ⊔ d.chan.cap =
          d.chan.cap := by
        refine sup_eq_right.mpr ?_
        simp only [List.length_drop]
        omega
      rw [h4] at s3'
      simpa [deliveryIter, consumerPop] using s3'
    have hd1sum : (deliveryIter d inp).consumed ++
        (deliveryIter d inp).chan.queue ++ (deliveryIter d inp).overflow =
        d.consumed ++ d.chan.queue ++ d.overflow ++ inp.2 := by
      simp only [deliveryIter, consumerPop]
      rw [List.append_assoc (d.consumed ++ d.chan.queue.take inp.1), s2']
      rw [List.append_assoc d.consumed]
      rw [← List.append_assoc (d.chan.queue.take inp.1)]
      rw [List.take_append_drop]
      simp [List.append_assoc]
    have hd1len' : (deliveryIter d inp).chan.queue.length ≤
        (deliveryIter d inp).chan.cap := by
      rw [hd1cap]
      exact hd1len
    obtain ⟨r1, r2, r3⟩ := ih (deliveryIter d inp) hd1len'
    refine ⟨?_, ?_, ?_⟩
    · simp only [deliveryRun]
      rw [r1, hd1cap]
    · simp only [deliveryRun] at r2 ⊢
      rw [r2, hd1sum]
      have hall : allDiscoveries (inp :: rest) =
          inp.2 ++ allDiscoveries rest := by
        simp [allDiscoveries]
      rw [hall]
      simp [List.append_assoc]
    · simp only [deliveryRun]
      rw [hd1cap] at r3
      exact r3

/-- **C1.** Modelled from the spec (the bounded manager variant is not
among the provided sources): with the default capacity 8 and the
overflow buffer replayed ahead of newer discoveries each publish step,
every run delivers with zero loss in strict discovery order — what the
consumer drained, followed by the channel contents, followed by the
overflow buffer, is exactly the concatenation of all discoveries — and
the channel never holds more than 8 records. -/
theorem delivery_fifo_no_loss (trace : List (Nat × List RecId)) :
    (deliveryRun initDelivery trace).consumed ++
      (deliveryRun initDelivery trace).chan.queue ++
      (deliveryRun initDelivery trace).overflow = allDiscoveries trace ∧
    (deliveryRun initDelivery trace).chan.queue.length ≤ 8 ∧
    (deliveryRun initDelivery trace).chan.cap = 8 := by
  obtain ⟨r1, r2, r3⟩ := deliveryRun_inv initDelivery trace
    (by simp [initDelivery])
  refine ⟨?_, ?_, ?_⟩
  · simpa [initDelivery] using r2
  · simpa [initDelivery] using r3
  · simpa [initDelivery] using r1

/-! ## C3: the scan-interval cell -/

theorem intervalRun_length (c : Nat) (l : List IntervalIter) :
    (intervalRun c l).1.length = l.length := by
  induction l generalizing c with
  | nil => simp [intervalRun]
  | cons it rest ih => simp [intervalRun, ih]

/-- **C3.** Modelled from the spec (the atomic-cell manager variant is
not among the provided sources): the scan interval lives in a single
cell read exactly once per iteration — one slept duration per iteration
— whose write is a single unconditional step that always lands
(`writeCell` is total and never waits); writes landing during an
iteration's sleep leave that sleep unchanged and are exactly what the
next iteration's read observes. -/
theorem scan_interval_cell (c : Nat) (it : IntervalIter)
    (rest : List IntervalIter) (w' : List Nat) (v : Nat) :
    (intervalRun c (it :: rest)).1.length = rest.length + 1 ∧
    (intervalRun c
      ({ writesBeforeRead := it.writesBeforeRead, writesDuringSleep := w' }
        :: rest)).1.headI =
      (intervalRun c (it :: rest)).1.headI ∧
    (intervalRun c
      ({ writesBeforeRead := it.writesBeforeRead,
         writesDuringSleep := it.writesDuringSleep ++ [v] }
        :: { writesBeforeRead := [], writesDuringSleep := [] }
        :: rest)).1.tail.headI = v ∧
    writeCell c v = v := by
  refine ⟨?_, ?_, ?_, rfl⟩
  · simpa using intervalRun_length c (it :: rest)
  · simp [intervalRun, readCell]
  · simp [intervalRun, readCell, applyWrites, List.foldl_append, writeCell]

/-! ## C4: singleton guard -/

/-- **C4.** At most one manager may be constructed per process: starting
from the cleared flag, a sequence of `n + 1` construction attempts yields
`created` exactly once — on the first attempt — and every later attempt
panics (a fatal abort, not an error return); the flag is set by the first
attempt and never cleared afterwards. -/
theorem managerCtor_singleton (n : Nat) :
    runCtors false (n + 1) =
      (true, CtorOutcome.created ::
        List.replicate n (CtorOutcome.panicked
          "Several WiimoteManagers created in the same application!")) := by
  have hTrue : ∀ m : Nat, runCtors true m =
      (true, List.replicate m (CtorOutcome.panicked
        "Several WiimoteManagers created in the same application!")) := by
    intro m
    induction m with
    | zero => simp [runCtors]
    | succ k ih => simp [runCtors, managerCtor, ih, List.replicate_succ]
  simp [runCtors, managerCtor, hTrue n]

end WiimoteRs
